import Mathlib

/-!
# Verification of `clustering.py` (climate-station k-means)

Shallow embedding of the k-means clustering script. Station records are
pairs of a station identifier and the list of integer feature values
(`row[1:]` in the source). Python floats are modelled exactly by `ℚ`,
`math.sqrt` by `Real.sqrt`. Python list indexing that can raise
`IndexError` is modelled either with `Option` results (where the crash is
the point of a claim) or with `List.getD` together with in-bounds
hypotheses in every theorem (the source raises `IndexError` outside those
bounds).
-/

namespace Clustering

/-- A station record as assembled by `main`: `[sid] + max_vals + min_vals`.
`vals` is the Python `row[1:]`. -/
abbrev Record := String × List Int

/-- Python 2 `int(round(q))`: round half away from zero. -/
def pyRound (q : ℚ) : ℤ :=
  if 0 ≤ q then ⌊q + 1/2⌋ else ⌈q - 1/2⌉

/-- Squared Euclidean distance over `zip` (Python `zip` truncates to the
shorter list, exactly as `dist` in the source does). The source computes
`math.sqrt` of this value; see `dist`. -/
def distSq (u v : List Int) : ℤ :=
  ((u.zip v).map (fun p => (p.1 - p.2) ^ 2)).sum

/-- The source's `dist(u, v)`: `math.sqrt(sum((x - y)**2 for x,y in zip(u,v)))`. -/
noncomputable def dist (u v : List Int) : ℝ :=
  Real.sqrt ((distSq u v : ℤ) : ℝ)

/-- Python `min` over a non-empty list of `(index, key)` pairs with
`key = snd`: keeps the first pair achieving the minimal key
(`min` only replaces the accumulator on a strictly smaller key).
On `[]` Python raises `ValueError`; we return `(0, 0)` there and every
theorem assumes a non-empty centroid list. -/
def minEnum : List (Nat × Int) → Nat × Int
  | [] => (0, 0)
  | x :: xs => xs.foldl (fun acc p => if p.2 < acc.2 then p else acc) x

/-- Source `find_closest_centroids(monthly_data, centroids)`: for each record,
the index of the first centroid at minimal distance (`min(enumerate(...))`
over the per-centroid distances; comparing `math.sqrt` values in exact
arithmetic orders them exactly like the squared distances). -/
def find_closest_centroids (monthly_data : List Record) (centroids : List (List Int)) :
    List Nat :=
  monthly_data.map (fun row =>
    (minEnum (((centroids.map (fun c => distSq row.2 c)).enum))).1)

/-- One step of the Python accumulator loop body `fn(agg, (i, ls))`:
`agg[indices[i]][0] += 1` and `agg[indices[i]][j] += ls[j]` for
`j in range(1, n)` (`ls[j]` is component `j-1` of the record's values,
since `ls[0]` is the station id). -/
def aggStep (n : Nat) (indices : List Nat) (agg : List (List Int))
    (p : Nat × Record) : List (List Int) :=
  let c := indices.getD p.1 0
  let row := agg.getD c []
  let row := row.set 0 (row.getD 0 0 + 1)
  let row := (List.range' 1 (n - 1)).foldl
    (fun r j => r.set j (r.getD j 0 + p.2.2.getD (j - 1) 0)) row
  agg.set c row

/-- The accumulator after the whole `reduce(fn, enumerate(monthly_data), sums)`
with `sums = [[0]*n for x in range(k)]`. -/
def aggSums (monthly_data : List Record) (indices : List Nat) (k n : Nat) :
    List (List Int) :=
  (monthly_data.enum).foldl (aggStep n indices) (List.replicate k (List.replicate n 0))

/-- Source `compute_centroids(monthly_data, indices, k)`: fold the accumulator
over `enumerate(monthly_data)`, drop rows with a zero count
(`if row[0]`), and return the rounded means `row[1:] / row[0]`.
(`n = len(monthly_data[0])`; on empty data the source raises
`IndexError`, and all theorems assume non-empty data.) -/
def compute_centroids (monthly_data : List Record) (indices : List Nat) (k : Nat) :
    List (List Int) :=
  ((aggSums monthly_data indices k (1 + (monthly_data.headI).2.length)).filter
      (fun row => row.getD 0 0 != 0)).map
    (fun row => row.tail.map (fun x : ℤ => pyRound ((x : ℚ) / ((row.getD 0 0 : ℤ) : ℚ))))

/-- Source `compute_distortion(monthly_data, centroids, indices)`: mean of the
squared distances `dist(row[1:], centroids[indices[i]])**2`. The source
raises `IndexError` when some `indices[i]` is out of range of `centroids`
(or `i` out of range of `indices`) and `ZeroDivisionError` on empty data;
both crashes are modelled by `none`. -/
def compute_distortion (monthly_data : List Record) (centroids : List (List Int))
    (indices : List Nat) : Option ℚ :=
  if 0 < monthly_data.length ∧
      ∀ i < monthly_data.length,
        i < indices.length ∧ indices.getD i 0 < centroids.length then
    some ((∑ i in Finset.range monthly_data.length,
        ((distSq (monthly_data.getD i ("", [])).2
          (centroids.getD (indices.getD i 0) []) : ℤ) : ℚ)) / (monthly_data.length : ℚ))
  else
    none

/-- Number of records assigned to cluster `c` by `indices` (first `N` records). -/
def clusterCount (indices : List Nat) (N c : Nat) : Nat :=
  ((Finset.range N).filter (fun i => indices.getD i 0 = c)).card

/-- Sum of feature component `t` over the records assigned to cluster `c`. -/
def clusterSumAt (monthly_data : List Record) (indices : List Nat) (N c t : Nat) : ℤ :=
  ∑ i in (Finset.range N).filter (fun i => indices.getD i 0 = c),
    (monthly_data.getD i ("", [])).2.getD t 0

/-- Specification form of the update phase (the spec's words): one row per
non-empty cluster, in cluster-index order, holding the component-wise
rounded mean of the assigned records. -/
def roundedMeanCentroids (monthly_data : List Record) (indices : List Nat) (k d : Nat) :
    List (List Int) :=
  ((List.range k).filter
      (fun c => clusterCount indices monthly_data.length c != 0)).map
    (fun c => (List.range d).map (fun t =>
      pyRound ((clusterSumAt monthly_data indices monthly_data.length c t : ℚ) /
        (clusterCount indices monthly_data.length c : ℚ))))

/-- One iteration of the loop in `main`: assignment then update. -/
def kmeansStep (monthly_data : List Record) (k : Nat) (centroids : List (List Int)) :
    List (List Int) :=
  compute_centroids monthly_data (find_closest_centroids monthly_data centroids) k

/-- The distortion printed (in verbose mode) at the end of one iteration of
the loop in `main`: the freshly updated centroids together with the
assignment of the same iteration. -/
def stepDistortion (monthly_data : List Record) (k : Nat) (centroids : List (List Int)) :
    Option ℚ :=
  compute_distortion monthly_data (kmeansStep monthly_data k centroids)
    (find_closest_centroids monthly_data centroids)

/-- The centroid list held at the start of iteration `t` of the loop in
`main`, starting from `C0`. -/
def loopCentroids (monthly_data : List Record) (k : Nat) (C0 : List (List Int)) :
    Nat → List (List Int)
  | 0 => C0
  | t + 1 => kmeansStep monthly_data k (loopCentroids monthly_data k C0 t)

/-- Python `zip(*ls)`: truncates to the shortest of the lists. Fueled by
the length of the first list, which bounds the number of rows `zip`
produces. -/
def pyZipAux : Nat → List (List Int) → List (List Int)
  | 0, _ => []
  | fuel + 1, ls =>
    if ls.isEmpty || ls.any List.isEmpty then []
    else (ls.map List.headI) :: pyZipAux fuel (ls.map List.tail)

/-- Python `zip(*ls)` as used in `avg_monthly_values`. -/
def pyZip (ls : List (List Int)) : List (List Int) :=
  pyZipAux ls.headI.length ls

/-- A Python list comprehension whose body can raise: evaluates left to
right and propagates the first raise (`none`). -/
def optionMapList {α β : Type} : List α → (α → Option β) → Option (List β)
  | [], _ => some []
  | x :: xs, f =>
    match f x with
    | none => none
    | some y => (optionMapList xs f).map (fun ys => y :: ys)

/-- Source `avg_monthly_values(ls)`: transpose the per-year rows, drop sentinel
`-9999` readings, and return the rounded mean of each calendar position.
A position left with no readings raises `ZeroDivisionError` (`none`). -/
def avg_monthly_values (ls : List (List Int)) : Option (List Int) :=
  optionMapList ((pyZip ls).map (fun l => l.filter (fun x => x != -9999)))
    (fun l => if l.length = 0 then none
      else some (pyRound ((l.sum : ℚ) / (l.length : ℚ))))

/-- A parsed data-file row: station id (`row[:11]`), year (`int(row[11:15])`)
and the 12 monthly values (`parse_monthly_values(row)`). -/
structure RawRow where
  sid : String
  yr : Int
  vals : List Int
deriving DecidableEq

/-- The grouping loop of `data_gen`, with state `(curr_station, curr_values)`
as in the source: on a station change the previous group is yielded when
`curr_station != ""` and more than 20 values accumulated; the current row's
values are appended when its station is eligible and its year lies in
`[1981, 2010]`. Faithfully to the source, nothing is yielded when the row
stream ends, so the final station group is never emitted. -/
def dataGenGroups (station_ids : List String) :
    List RawRow → String → List (List Int) → List (String × List (List Int))
  | [], _, _ => []
  | r :: rest, curr_station, curr_values =>
    if r.sid ≠ curr_station then
      (if curr_station ≠ "" ∧ curr_values.length > 20 then
        [(curr_station, curr_values)] else []) ++
      dataGenGroups station_ids rest r.sid
        (if r.sid ∈ station_ids ∧ 1981 ≤ r.yr ∧ r.yr ≤ 2010 then [r.vals] else [])
    else
      dataGenGroups station_ids rest curr_station
        (if r.sid ∈ station_ids ∧ 1981 ≤ r.yr ∧ r.yr ≤ 2010 then
          curr_values ++ [r.vals] else curr_values)

/-- Source `data_gen(filename, station_ids)`: one `(station, averaged values)`
pair per yielded group; a `ZeroDivisionError` inside `avg_monthly_values`
kills the whole generator (`none`). -/
def data_gen (station_ids : List String) (rows : List RawRow) :
    Option (List (String × List Int)) :=
  optionMapList (dataGenGroups station_ids rows "" [])
    (fun p => (avg_monthly_values p.2).map (fun v => (p.1, v)))

/-- The San Francisco base vector of `initial_centroid`. -/
def base : List Int :=
  [1522, 1582, 1752, 1972, 2082, 2252, 2082, 2302, 2472, 2022, 1582, 1522,
   610, 670, 720, 830, 890, 1060, 1220, 1330, 1280, 1170, 1000, 610]

/-- Source `initial_centroid()`, with the draw `shift = random.randint(-800, 800)`
made explicit as a parameter. -/
def initial_centroid (shift : Int) : List Int :=
  base.map (fun x => x + shift)

/-- The list `[initial_centroid() for y in range(k)]`, with the independent
per-centroid draws made explicit as a list of shifts. -/
def initialCentroids (shifts : List Int) : List (List Int) :=
  shifts.map initial_centroid

/-! ### Rounding lemmas -/

lemma pyRound_abs_le (q : ℚ) : |(pyRound q : ℚ) - q| ≤ 1 / 2 := by
  unfold pyRound
  split
  · rw [abs_le]
    constructor
    · have h := Int.sub_one_lt_floor (q + 1 / 2)
      push_cast at h ⊢
      linarith
    · have h := Int.floor_le (q + 1 / 2)
      push_cast at h ⊢
      linarith
  · rw [abs_le]
    constructor
    · have h := Int.le_ceil (q - 1 / 2)
      push_cast at h ⊢
      linarith
    · have h := Int.ceil_lt_add_one (q - 1 / 2)
      push_cast at h ⊢
      linarith

/-- Rounding half away from zero gives a nearest integer to `q`. -/
lemma pyRound_nearest (q : ℚ) (z : ℤ) : |(pyRound q : ℚ) - q| ≤ |(z : ℚ) - q| := by
  rcases eq_or_ne z (pyRound q) with rfl | hne
  · exact le_refl _
  · have h1 : (1 : ℚ) ≤ |(z : ℚ) - (pyRound q : ℚ)| := by
      rw [← Int.cast_sub, ← Int.cast_abs]
      exact_mod_cast Int.one_le_abs (sub_ne_zero.mpr hne)
    have h2 := pyRound_abs_le q
    have h3 : |(z : ℚ) - (pyRound q : ℚ)| ≤ |(z : ℚ) - q| + |q - (pyRound q : ℚ)| :=
      abs_sub_le _ _ _
    have h4 : |q - (pyRound q : ℚ)| = |(pyRound q : ℚ) - q| := abs_sub_comm _ _
    linarith

/-! ### Distance lemmas -/

lemma distSq_nonneg (u v : List Int) : 0 ≤ distSq u v := by
  apply List.sum_nonneg
  intro x hx
  obtain ⟨p, _, rfl⟩ := List.mem_map.mp hx
  positivity

lemma distSq_eq_sum {d : Nat} : ∀ (u v : List Int), u.length = d → v.length = d →
    distSq u v = ∑ t in Finset.range d, (u.getD t 0 - v.getD t 0) ^ 2 := by
  induction d with
  | zero =>
    intro u v hu hv
    rw [List.length_eq_zero] at hu hv
    subst hu; subst hv
    simp [distSq]
  | succ d ih =>
    intro u v hu hv
    cases u with
    | nil => simp at hu
    | cons a u' =>
      cases v with
      | nil => simp at hv
      | cons b v' =>
        simp only [List.length_cons, Nat.succ_inj] at hu hv
        have : distSq (a :: u') (b :: v') = (a - b) ^ 2 + distSq u' v' := by
          simp [distSq, List.zip_cons_cons]
        rw [this, ih u' v' hu hv, Finset.sum_range_succ']
        simp [List.getD_cons_succ, List.getD_cons_zero]
        ring

lemma dist_le_dist_iff (u v w x : List Int) : dist u v ≤ dist w x ↔ distSq u v ≤ distSq w x := by
  unfold dist
  rw [Real.sqrt_le_sqrt_iff (by exact_mod_cast distSq_nonneg w x)]
  exact_mod_cast Iff.rfl

lemma dist_lt_dist_iff (u v w x : List Int) : dist u v < dist w x ↔ distSq u v < distSq w x := by
  rw [← not_le, ← not_le, not_iff_not]
  exact dist_le_dist_iff w x u v

/-! ### First-argmin characterization of the Python `min(enumerate(...))` -/

lemma minEnum_append (l : List (Nat × Int)) (hl : l ≠ []) (a : Nat × Int) :
    minEnum (l ++ [a]) = if a.2 < (minEnum l).2 then a else minEnum l := by
  obtain ⟨x, xs, rfl⟩ := List.exists_cons_of_ne_nil hl
  simp [minEnum, List.foldl_append]

lemma minEnum_spec (xs : List Int) (hne : xs ≠ []) :
    (minEnum xs.enum).1 < xs.length ∧
    (minEnum xs.enum).2 = xs.getD (minEnum xs.enum).1 0 ∧
    (∀ m < xs.length, (minEnum xs.enum).2 ≤ xs.getD m 0) ∧
    (∀ m < (minEnum xs.enum).1, (minEnum xs.enum).2 < xs.getD m 0) := by
  induction xs using List.reverseRecOn with
  | nil => exact absurd rfl hne
  | append_singleton l a ih =>
    rcases eq_or_ne l [] with rfl | hl
    · simp [minEnum, List.enum]
    · have henum : (l ++ [a]).enum = l.enum ++ [(l.length, a)] := by
        rw [List.enum_append]
        simp [List.enumFrom_singleton]
      have henil : l.enum ≠ [] := by
        intro h
        apply hl
        have hlen := congrArg List.length h
        simpa using hlen
      obtain ⟨h1, h2, h3, h4⟩ := ih hl
      rw [henum, minEnum_append _ henil]
      have hgetlt : ∀ m < l.length, (l ++ [a]).getD m 0 = l.getD m 0 := fun m hm => by
        simp [List.getD_eq_getElem?_getD, List.getElem?_append_left hm]
      have hgetN : (l ++ [a]).getD l.length 0 = a := by
        simp [List.getD_eq_getElem?_getD]
      split
      · next hlt =>
        refine ⟨by simp, by simp [hgetN], ?_, ?_⟩
        · intro m hm
          simp only [List.length_append, List.length_singleton] at hm
          rcases Nat.lt_succ_iff_lt_or_eq.mp hm with hm' | rfl
          · rw [hgetlt m hm']
            exact le_of_lt (lt_of_lt_of_le hlt (h3 m hm'))
          · rw [hgetN]
        · intro m hm
          simp only at hm
          rw [hgetlt m hm]
          exact lt_of_lt_of_le hlt (h3 m hm)
      · next hge =>
        push_neg at hge
        refine ⟨?_, ?_, ?_, ?_⟩
        · simp only [List.length_append, List.length_singleton]
          omega
        · rw [hgetlt _ h1]; exact h2
        · intro m hm
          simp only [List.length_append, List.length_singleton] at hm
          rcases Nat.lt_succ_iff_lt_or_eq.mp hm with hm' | rfl
          · rw [hgetlt m hm']
            exact h3 m hm'
          · rw [hgetN]
            exact hge
        · intro m hm
          rw [hgetlt m (lt_trans hm h1)]
          exact h4 m hm

/-! ### `getD` helpers -/

lemma getD_set_ne {α : Type} (l : List α) (i j : Nat) (a d : α) (h : i ≠ j) :
    (l.set i a).getD j d = l.getD j d := by
  simp [List.getD_eq_getElem?_getD, List.getElem?_set_ne h]

lemma getD_set_self {α : Type} (l : List α) (i : Nat) (a d : α) (h : i < l.length) :
    (l.set i a).getD i d = a := by
  simp [List.getD_eq_getElem?_getD, List.getElem?_set_self, h]

lemma getD_append_left {α : Type} (l : List α) (x : α) (i : Nat) (d : α) (h : i < l.length) :
    (l ++ [x]).getD i d = l.getD i d := by
  simp [List.getD_eq_getElem?_getD, List.getElem?_append_left h]

lemma getD_append_length {α : Type} (l : List α) (x : α) (d : α) :
    (l ++ [x]).getD l.length d = x := by
  simp [List.getD_eq_getElem?_getD]

lemma getD_replicate {α : Type} (k c : Nat) (x d : α) (h : c < k) :
    (List.replicate k x).getD c d = x := by
  simp only [List.getD_eq_getElem?_getD, List.getElem?_replicate]
  simp [h]

lemma getD_map_range {α : Type} (n m : Nat) (f : Nat → α) (d : α) (h : m < n) :
    ((List.range n).map f).getD m d = f m := by
  simp [List.getD_eq_getElem?_getD, List.getElem?_map, List.getElem?_range h]

lemma getD_of_map {α β : Type} (l : List α) (f : α → β) (i : Nat) (d : β) (dfl : α)
    (h : i < l.length) : (l.map f).getD i d = f (l.getD i dfl) := by
  simp [List.getD_eq_getElem?_getD, List.getElem?_map, List.getElem?_eq_getElem h,
    List.getD_eq_getElem?_getD, List.getElem_eq_iff]

/-! ### Characterization of the accumulator fold in `compute_centroids` -/

/-- Effect of the inner Python loop `for j in range(a, a+b): r[j] += vals[j-1]`. -/
lemma rowUpdate_spec (vals : List Int) :
    ∀ (b a : Nat) (row : List Int), a + b ≤ row.length →
    ((List.range' a b).foldl
        (fun r j => r.set j (r.getD j 0 + vals.getD (j - 1) 0)) row).length = row.length ∧
    (∀ j, (j < a ∨ a + b ≤ j) →
      ((List.range' a b).foldl
        (fun r j => r.set j (r.getD j 0 + vals.getD (j - 1) 0)) row).getD j 0 = row.getD j 0) ∧
    (∀ j, a ≤ j → j < a + b →
      ((List.range' a b).foldl
        (fun r j => r.set j (r.getD j 0 + vals.getD (j - 1) 0)) row).getD j 0 =
        row.getD j 0 + vals.getD (j - 1) 0) := by
  intro b
  induction b with
  | zero =>
    intro a row _
    exact ⟨rfl, fun j _ => rfl, fun j h1 h2 => absurd h2 (by omega)⟩
  | succ b ih =>
    intro a row hab
    rw [List.range'_succ]
    simp only [List.foldl_cons]
    set row1 := row.set a (row.getD a 0 + vals.getD (a - 1) 0) with hrow1
    have hlen1 : row1.length = row.length := List.length_set ..
    have hab1 : (a + 1) + b ≤ row1.length := by omega
    obtain ⟨ihlen, ihout, ihin⟩ := ih (a + 1) row1 hab1
    refine ⟨by rw [ihlen, hlen1], ?_, ?_⟩
    · intro j hj
      have hj' : j < a + 1 ∨ (a + 1) + b ≤ j := by omega
      have hne : a ≠ j := by omega
      rw [ihout j hj', hrow1, getD_set_ne _ _ _ _ _ hne]
    · intro j hj1 hj2
      rcases eq_or_lt_of_le hj1 with rfl | hj1'
      · have hout : a < a + 1 ∨ (a + 1) + b ≤ a := Or.inl (by omega)
        rw [ihout a hout, hrow1, getD_set_self _ _ _ _ (by omega)]
      · have hne : a ≠ j := by omega
        rw [ihin j (by omega) (by omega), hrow1, getD_set_ne _ _ _ _ _ hne]

/-- Full characterization of the accumulator: after folding all records,
slot `c` holds `[count in cluster c, componentwise sums of cluster c]`. -/
lemma aggSums_spec (indices : List Nat) (k n : Nat) (hn : 1 ≤ n) :
    ∀ (monthly_data : List Record),
    (∀ i < monthly_data.length, indices.getD i 0 < k) →
    (aggSums monthly_data indices k n).length = k ∧
    ∀ c < k,
      ((aggSums monthly_data indices k n).getD c []).length = n ∧
      ∀ j < n, ((aggSums monthly_data indices k n).getD c []).getD j 0 =
        if j = 0 then (clusterCount indices monthly_data.length c : ℤ)
        else clusterSumAt monthly_data indices monthly_data.length c (j - 1) := by
  intro monthly_data
  induction monthly_data using List.reverseRecOn with
  | nil =>
    intro _
    have h0 : aggSums [] indices k n = List.replicate k (List.replicate n 0) := by
      simp [aggSums]
    rw [h0]
    refine ⟨List.length_replicate .., fun c hc => ?_⟩
    rw [getD_replicate _ _ _ _ hc]
    refine ⟨List.length_replicate .., fun j hj => ?_⟩
    rw [getD_replicate _ _ _ _ hj]
    simp [clusterCount, clusterSumAt]
  | append_singleton data r ih =>
    intro hb
    have hblt : ∀ i < data.length, indices.getD i 0 < k := fun i hi =>
      hb i (by simp; omega)
    obtain ⟨ihlen, ihc⟩ := ih hblt
    set N := data.length with hN
    have hfold : aggSums (data ++ [r]) indices k n =
        aggStep n indices (aggSums data indices k n) (N, r) := by
      unfold aggSums
      rw [List.enum_append, List.enumFrom_singleton, List.foldl_append, List.foldl_cons,
        List.foldl_nil]
    have hcN : indices.getD N 0 < k := hb N (by simp)
    set c0 := indices.getD N 0 with hc0
    set agg := aggSums data indices k n with hagg
    obtain ⟨hrowlen, hrowj⟩ := ihc c0 hcN
    -- unfold one aggStep
    have hstep : aggStep n indices agg (N, r) =
        agg.set c0 ((List.range' 1 (n - 1)).foldl
          (fun row j => row.set j (row.getD j 0 + r.2.getD (j - 1) 0))
          ((agg.getD c0 []).set 0 ((agg.getD c0 []).getD 0 0 + 1))) := rfl
    set row1 := (agg.getD c0 []).set 0 ((agg.getD c0 []).getD 0 0 + 1) with hrow1
    have hrow1len : row1.length = n := by rw [hrow1, List.length_set, hrowlen]
    obtain ⟨hr2len, hr2out, hr2in⟩ := rowUpdate_spec r.2 (n - 1) 1 row1 (by omega)
    set row2 := (List.range' 1 (n - 1)).foldl
      (fun row j => row.set j (row.getD j 0 + r.2.getD (j - 1) 0)) row1 with hrow2
    have hlen' : (aggSums (data ++ [r]) indices k n).length = k := by
      rw [hfold, hstep, List.length_set, ihlen]
    refine ⟨hlen', fun c hc => ?_⟩
    have hcount_ne : ∀ c', c' ≠ c0 →
        clusterCount indices (N + 1) c' = clusterCount indices N c' := by
      intro c' hne
      unfold clusterCount
      rw [Finset.range_succ, Finset.filter_insert, if_neg (by simpa [hc0] using hne.symm)]
    have hsum_ne : ∀ c' t, c' ≠ c0 →
        clusterSumAt (data ++ [r]) indices (N + 1) c' t =
        clusterSumAt data indices N c' t := by
      intro c' t hne
      unfold clusterSumAt
      rw [Finset.range_succ, Finset.filter_insert, if_neg (by simpa [hc0] using hne.symm)]
      refine Finset.sum_congr rfl (fun i hi => ?_)
      have hiN : i < N := Finset.mem_range.mp (Finset.mem_of_mem_filter i hi)
      rw [getD_append_left _ _ _ _ hiN]
    have hcount_eq : clusterCount indices (N + 1) c0 = clusterCount indices N c0 + 1 := by
      unfold clusterCount
      rw [Finset.range_succ, Finset.filter_insert, if_pos (by simp [hc0])]
      exact Finset.card_insert_of_not_mem (fun h =>
        absurd (Finset.mem_range.mp (Finset.mem_of_mem_filter N h)) (lt_irrefl N))
    have hsum_eq : ∀ t, clusterSumAt (data ++ [r]) indices (N + 1) c0 t =
        clusterSumAt data indices N c0 t + r.2.getD t 0 := by
      intro t
      unfold clusterSumAt
      rw [Finset.range_succ, Finset.filter_insert, if_pos (by simp [hc0])]
      rw [Finset.sum_insert (fun h =>
        absurd (Finset.mem_range.mp (Finset.mem_of_mem_filter N h)) (lt_irrefl N))]
      rw [getD_append_length]
      rw [add_comm]
      congr 1
      refine Finset.sum_congr rfl (fun i hi => ?_)
      have hiN : i < N := Finset.mem_range.mp (Finset.mem_of_mem_filter i hi)
      rw [getD_append_left _ _ _ _ hiN]
    rcases eq_or_ne c c0 with rfl | hne
    · -- the updated slot
      have hget : (aggSums (data ++ [r]) indices k n).getD c0 [] = row2 := by
        rw [hfold, hstep]
        exact getD_set_self _ _ _ _ (by rw [ihlen]; exact hc)
      rw [hget]
      refine ⟨by rw [hr2len, hrow1len], fun j hj => ?_⟩
      rcases eq_or_ne j 0 with rfl | hj0
      · rw [hr2out 0 (Or.inl (by omega)), hrow1,
          getD_set_self _ _ _ _ (by rw [hrowlen]; omega)]
        rw [if_pos rfl, List.length_append, List.length_singleton, hcount_eq]
        rw [hrowj 0 (by omega), if_pos rfl]
        push_cast
        ring
      · have hj1 : 1 ≤ j := by omega
        rw [hr2in j hj1 (by omega), hrow1, getD_set_ne _ _ _ _ _ (Ne.symm hj0)]
        rw [if_neg hj0, List.length_append, List.length_singleton, hsum_eq]
        rw [hrowj j hj, if_neg hj0]
    · -- untouched slots
      have hget : (aggSums (data ++ [r]) indices k n).getD c [] =
          agg.getD c [] := by
        rw [hfold, hstep]
        exact getD_set_ne _ _ _ _ _ (Ne.symm hne)
      rw [hget]
      obtain ⟨hlc, hjc⟩ := ihc c hc
      refine ⟨hlc, fun j hj => ?_⟩
      rw [hjc j hj, List.length_append, List.length_singleton]
      rcases eq_or_ne j 0 with rfl | hj0
      · rw [if_pos rfl, if_pos rfl, hcount_ne c hne]
      · rw [if_neg hj0, if_neg hj0, hsum_ne c _ hne]

/-- Each accumulator slot, as an explicit list. -/
lemma aggSums_getD_eq (indices : List Nat) (k n : Nat) (hn : 1 ≤ n)
    (monthly_data : List Record)
    (hb : ∀ i < monthly_data.length, indices.getD i 0 < k) (c : Nat) (hc : c < k) :
    (aggSums monthly_data indices k n).getD c [] =
      (clusterCount indices monthly_data.length c : ℤ) ::
        (List.range (n - 1)).map
          (fun t => clusterSumAt monthly_data indices monthly_data.length c t) := by
  obtain ⟨-, hrow⟩ := aggSums_spec indices k n hn monthly_data hb
  obtain ⟨hlen, hj⟩ := hrow c hc
  apply List.ext_getElem
  · rw [hlen]
    simp
    omega
  · intro j h1 h2
    have hjn : j < n := by rw [hlen] at h1; exact h1
    have hval := hj j hjn
    rw [List.getD_eq_getElem _ _ h1] at hval
    rw [hval]
    rcases Nat.eq_zero_or_pos j with rfl | hj0
    · simp
    · obtain ⟨t, rfl⟩ := Nat.exists_eq_succ_of_ne_zero (Nat.pos_iff_ne_zero.mp hj0)
      rw [if_neg (Nat.succ_ne_zero t)]
      rw [List.getElem_cons_succ, List.getElem_map, List.getElem_range]
      simp

/-- The whole accumulator, as an explicit list of lists. -/
lemma aggSums_eq (indices : List Nat) (k n : Nat) (hn : 1 ≤ n)
    (monthly_data : List Record)
    (hb : ∀ i < monthly_data.length, indices.getD i 0 < k) :
    aggSums monthly_data indices k n =
      (List.range k).map (fun c =>
        (clusterCount indices monthly_data.length c : ℤ) ::
          (List.range (n - 1)).map
            (fun t => clusterSumAt monthly_data indices monthly_data.length c t)) := by
  obtain ⟨hlen, -⟩ := aggSums_spec indices k n hn monthly_data hb
  apply List.ext_getElem
  · simp [hlen]
  · intro c h1 h2
    rw [List.getElem_map, List.getElem_range]
    rw [← List.getD_eq_getElem _ ([] : List Int) h1]
    exact aggSums_getD_eq indices k n hn monthly_data hb c (by rw [hlen] at h1; exact h1)

/-- Equation: `compute_centroids` computes exactly the spec's rounded component-wise
means of the non-empty clusters, in cluster-index order. -/
lemma compute_centroids_eq (monthly_data : List Record) (indices : List Nat) (k : Nat)
    (hb : ∀ i < monthly_data.length, indices.getD i 0 < k) :
    compute_centroids monthly_data indices k =
      roundedMeanCentroids monthly_data indices k (monthly_data.headI.2.length) := by
  unfold compute_centroids roundedMeanCentroids
  rw [aggSums_eq indices k _ (by omega) monthly_data hb]
  rw [List.filter_map, List.map_map]
  rw [List.filter_congr (q := fun c =>
      clusterCount indices monthly_data.length c != 0) ?_]
  · apply List.map_congr_left
    intro c _
    simp only [Function.comp_apply, List.tail_cons, List.getD_cons_zero, List.map_map]
    have hd : 1 + monthly_data.headI.2.length - 1 = monthly_data.headI.2.length := by
      omega
    rw [hd]
    apply List.map_congr_left
    intro t _
    simp only [Function.comp_apply]
    norm_cast
  · intro c _
    simp only [Function.comp_apply, List.getD_cons_zero]
    rcases eq_or_ne (clusterCount indices monthly_data.length c) 0 with h | h
    · simp [h]
    · simp [bne, beq_iff_eq, h, Int.natCast_eq_zero]

/-! ### Assignment-phase characterization -/

lemma find_closest_centroids_length (monthly_data : List Record) (C : List (List Int)) :
    (find_closest_centroids monthly_data C).length = monthly_data.length :=
  List.length_map ..

lemma find_closest_centroids_getD (monthly_data : List Record) (C : List (List Int))
    (i : Nat) (hi : i < monthly_data.length) :
    (find_closest_centroids monthly_data C).getD i 0 =
      (minEnum ((C.map
        (fun c => distSq (monthly_data.getD i ("", [])).2 c)).enum)).1 := by
  unfold find_closest_centroids
  rw [getD_of_map _ _ _ _ ("", []) hi]

/-- The assigned index is in range, achieves the minimal (squared) distance,
and is the first index achieving it. -/
lemma find_closest_centroids_spec (monthly_data : List Record) (C : List (List Int))
    (hC : C ≠ []) (i : Nat) (hi : i < monthly_data.length) :
    (find_closest_centroids monthly_data C).getD i 0 < C.length ∧
    (∀ m < C.length,
      distSq (monthly_data.getD i ("", [])).2
          (C.getD ((find_closest_centroids monthly_data C).getD i 0) []) ≤
        distSq (monthly_data.getD i ("", [])).2 (C.getD m [])) ∧
    (∀ m < (find_closest_centroids monthly_data C).getD i 0,
      distSq (monthly_data.getD i ("", [])).2
          (C.getD ((find_closest_centroids monthly_data C).getD i 0) []) <
        distSq (monthly_data.getD i ("", [])).2 (C.getD m [])) := by
  rw [find_closest_centroids_getD _ _ _ hi]
  set v := (monthly_data.getD i ("", [])).2 with hv
  set xs := C.map (fun c => distSq v c) with hxs
  have hxsne : xs ≠ [] := by
    rw [hxs]
    simpa using hC
  have hlen : xs.length = C.length := List.length_map ..
  obtain ⟨h1, h2, h3, h4⟩ := minEnum_spec xs hxsne
  have hgetD : ∀ m < C.length, xs.getD m 0 = distSq v (C.getD m []) := by
    intro m hm
    rw [hxs]
    exact getD_of_map _ _ _ _ [] hm
  have hj : (minEnum xs.enum).1 < C.length := by rw [← hlen]; exact h1
  refine ⟨hj, ?_, ?_⟩
  · intro m hm
    rw [← hgetD _ hj, ← hgetD _ hm, ← h2]
    exact h3 m (by rw [hlen]; exact hm)
  · intro m hm
    rw [← hgetD _ hj, ← hgetD _ (lt_trans hm hj), ← h2]
    exact h4 m hm

/-! ### Length and membership facts about `compute_centroids` -/

lemma clusterCount_ne_zero_iff (indices : List Nat) (N c : Nat) :
    clusterCount indices N c ≠ 0 ↔ ∃ i < N, indices.getD i 0 = c := by
  unfold clusterCount
  rw [Ne, Finset.card_eq_zero, ← Ne, ← Finset.nonempty_iff_ne_empty]
  constructor
  · rintro ⟨i, hi⟩
    rw [Finset.mem_filter, Finset.mem_range] at hi
    exact ⟨i, hi.1, hi.2⟩
  · rintro ⟨i, hiN, hic⟩
    exact ⟨i, Finset.mem_filter.mpr ⟨Finset.mem_range.mpr hiN, hic⟩⟩

lemma compute_centroids_length (monthly_data : List Record) (indices : List Nat)
    (k : Nat) (hb : ∀ i < monthly_data.length, indices.getD i 0 < k) :
    (compute_centroids monthly_data indices k).length =
      ((List.range k).filter
        (fun c => clusterCount indices monthly_data.length c != 0)).length := by
  rw [compute_centroids_eq monthly_data indices k hb]
  unfold roundedMeanCentroids
  rw [List.length_map]

lemma compute_centroids_mem_length (monthly_data : List Record) (indices : List Nat)
    (k : Nat) (hb : ∀ i < monthly_data.length, indices.getD i 0 < k) :
    ∀ c ∈ compute_centroids monthly_data indices k,
      c.length = monthly_data.headI.2.length := by
  rw [compute_centroids_eq monthly_data indices k hb]
  unfold roundedMeanCentroids
  intro c hc
  obtain ⟨c0, -, rfl⟩ := List.mem_map.mp hc
  simp

/-- A filter of `range k` whose `m` kept elements are all below `m` is
exactly `range m`. -/
lemma filter_range_eq_range (p : Nat → Bool) :
    ∀ (k m : Nat), ((List.range k).filter p).length = m →
    (∀ c < k, p c → c < m) → (List.range k).filter p = List.range m := by
  intro k
  induction k with
  | zero =>
    intro m hm _
    simp only [List.range_zero, List.filter_nil, List.length_nil] at hm
    rw [← hm]
    simp
  | succ k ih =>
    intro m hm hlt
    rw [List.range_succ, List.filter_append] at hm ⊢
    by_cases hk : p k
    · have hm' : ((List.range k).filter p).length + 1 = m := by
        simpa [hk] using hm
      have hkm : k < m := hlt k (by omega) hk
      have hle : ((List.range k).filter p).length ≤ k := by
        calc ((List.range k).filter p).length ≤ (List.range k).length :=
              List.length_filter_le ..
          _ = k := List.length_range k
      have hmk : m = k + 1 := by omega
      have hflen : ((List.range k).filter p).length = (List.range k).length := by
        rw [List.length_range]
        omega
      have heq : (List.range k).filter p = List.range k :=
        (List.filter_sublist _).eq_of_length hflen
      rw [heq, hmk, List.range_succ]
      simp [hk]
    · have hm' : ((List.range k).filter p).length = m := by
        simpa [hk] using hm
      have hlt' : ∀ c < k, p c → c < m := fun c hc hp => hlt c (by omega) hp
      rw [ih m hm' hlt']
      simp [hk]

/-! ### The update phase can only decrease the within-cluster cost -/

/-- In one dimension, the integer `pyRound(mean)` minimizes the sum of
squared deviations over all integers. -/
lemma oneD_rounded_mean_le (s : Finset ℕ) (hs : s.Nonempty) (g : ℕ → ℤ) (z : ℤ) :
    ∑ i in s, ((g i : ℚ) -
        (pyRound (((∑ i in s, g i : ℤ) : ℚ) / (s.card : ℚ)) : ℚ)) ^ 2 ≤
      ∑ i in s, ((g i : ℚ) - (z : ℚ)) ^ 2 := by
  have hn : (0 : ℚ) < (s.card : ℚ) := by
    exact_mod_cast Finset.card_pos.mpr hs
  set n : ℚ := (s.card : ℚ) with hndef
  set S : ℚ := ((∑ i in s, g i : ℤ) : ℚ) with hSdef
  set P : ℚ := (pyRound (S / n) : ℚ) with hPdef
  have hSsum : S = ∑ i in s, (g i : ℚ) := by
    rw [hSdef]
    push_cast
    rfl
  have expand : ∀ c : ℚ, ∑ i in s, ((g i : ℚ) - c) ^ 2
      = (∑ i in s, (g i : ℚ) ^ 2) - 2 * c * S + n * c ^ 2 := by
    intro c
    have hterm : ∀ i ∈ s, ((g i : ℚ) - c) ^ 2
        = (g i : ℚ) ^ 2 - 2 * c * (g i : ℚ) + c ^ 2 := fun i _ => by ring
    rw [Finset.sum_congr rfl hterm, Finset.sum_add_distrib, Finset.sum_sub_distrib,
      ← Finset.mul_sum, Finset.sum_const, nsmul_eq_mul, ← hSsum, ← hndef]
  rw [expand, expand]
  have habs : |P - S / n| ≤ |(z : ℚ) - S / n| := pyRound_nearest (S / n) z
  have h1 : n * |P - S / n| ≤ n * |(z : ℚ) - S / n| :=
    mul_le_mul_of_nonneg_left habs (le_of_lt hn)
  have hn' : n ≠ 0 := ne_of_gt hn
  have hmul1 : n * (P - S / n) = n * P - S := by
    field_simp
    ring
  have hmul2 : n * ((z : ℚ) - S / n) = n * z - S := by
    field_simp
    ring
  have h2 : n * |P - S / n| = |n * P - S| := by
    rw [← hmul1, abs_mul, abs_of_pos hn]
  have h3 : n * |(z : ℚ) - S / n| = |n * z - S| := by
    rw [← hmul2, abs_mul, abs_of_pos hn]
  rw [h2, h3] at h1
  have hsq : (n * P - S) ^ 2 ≤ (n * (z : ℚ) - S) ^ 2 := by
    have := pow_le_pow_left (abs_nonneg (n * P - S)) h1 2
    rwa [sq_abs, sq_abs] at this
  have hkey : n * (n * P ^ 2 - 2 * P * S) ≤ n * (n * (z : ℚ) ^ 2 - 2 * z * S) := by
    nlinarith [hsq]
  have hfinal : n * P ^ 2 - 2 * P * S ≤ n * (z : ℚ) ^ 2 - 2 * z * S :=
    le_of_mul_le_mul_left hkey hn
  linarith

/-- The component-wise `pyRound`ed mean of a non-empty cluster has total
squared distance to the cluster at most that of any other integer vector
of the same dimension. -/
lemma cluster_update_le (s : Finset ℕ) (hs : s.Nonempty) (v : ℕ → List Int)
    (d : Nat) (hv : ∀ i ∈ s, (v i).length = d) (z : List Int) (hz : z.length = d) :
    ∑ i in s, (distSq (v i)
        ((List.range d).map (fun t =>
          pyRound (((∑ i in s, (v i).getD t 0 : ℤ) : ℚ) / (s.card : ℚ)))) : ℚ) ≤
      ∑ i in s, (distSq (v i) z : ℚ) := by
  set mean := (List.range d).map (fun t =>
    pyRound (((∑ i in s, (v i).getD t 0 : ℤ) : ℚ) / (s.card : ℚ))) with hmean
  have hmlen : mean.length = d := by rw [hmean, List.length_map, List.length_range]
  have hLHS : ∑ i in s, (distSq (v i) mean : ℚ) =
      ∑ t in Finset.range d, ∑ i in s,
        (((v i).getD t 0 : ℚ) - ((mean.getD t 0 : ℤ) : ℚ)) ^ 2 := by
    rw [Finset.sum_comm]
    refine Finset.sum_congr rfl (fun i hi => ?_)
    rw [distSq_eq_sum (v i) mean (hv i hi) hmlen]
    push_cast
    rfl
  have hRHS : ∑ i in s, (distSq (v i) z : ℚ) =
      ∑ t in Finset.range d, ∑ i in s,
        (((v i).getD t 0 : ℚ) - ((z.getD t 0 : ℤ) : ℚ)) ^ 2 := by
    rw [Finset.sum_comm]
    refine Finset.sum_congr rfl (fun i hi => ?_)
    rw [distSq_eq_sum (v i) z (hv i hi) hz]
    push_cast
    rfl
  rw [hLHS, hRHS]
  refine Finset.sum_le_sum (fun t ht => ?_)
  have hmget : mean.getD t 0 =
      pyRound (((∑ i in s, (v i).getD t 0 : ℤ) : ℚ) / (s.card : ℚ)) := by
    rw [hmean]
    exact getD_map_range _ _ _ _ (List.mem_range.mp ht)
  rw [hmget]
  exact oneD_rounded_mean_le s hs (fun i => (v i).getD t 0) (z.getD t 0)

/-- Inversion: a distortion value is only reported when every index is in
range of the (new) centroid list, and then it is the mean squared
distance. -/
lemma compute_distortion_some (monthly_data : List Record)
    (centroids : List (List Int)) (indices : List Nat) (q : ℚ)
    (h : compute_distortion monthly_data centroids indices = some q) :
    (0 < monthly_data.length ∧ ∀ i < monthly_data.length,
      i < indices.length ∧ indices.getD i 0 < centroids.length) ∧
    q = (∑ i in Finset.range monthly_data.length,
        ((distSq (monthly_data.getD i ("", [])).2
          (centroids.getD (indices.getD i 0) []) : ℤ) : ℚ)) /
      (monthly_data.length : ℚ) := by
  unfold compute_distortion at h
  split_ifs at h with hg
  exact ⟨hg, (Option.some.inj h).symm⟩

/-- Evaluation rule for `compute_distortion` on concrete inputs. -/
lemma compute_distortion_eval (monthly_data : List Record)
    (centroids : List (List Int)) (indices : List Nat) (S : ℤ)
    (hg : 0 < monthly_data.length ∧ ∀ i < monthly_data.length,
      i < indices.length ∧ indices.getD i 0 < centroids.length)
    (hS : (∑ i in Finset.range monthly_data.length,
        distSq (monthly_data.getD i ("", [])).2
          (centroids.getD (indices.getD i 0) [])) = S) :
    compute_distortion monthly_data centroids indices =
      some ((S : ℚ) / (monthly_data.length : ℚ)) := by
  unfold compute_distortion
  rw [if_pos hg]
  congr 1
  rw [← hS]
  push_cast
  rfl

/-- Python `zip` truncates both arguments to the common prefix. -/
lemma zip_take_eq : ∀ (u v : List Int),
    u.zip v = (u.take v.length).zip (v.take u.length)
  | [], _ => by simp
  | _ :: _, [] => by simp
  | a :: u, b :: v => by
    simp only [List.zip_cons_cons, List.length_cons, List.take_succ_cons]
    rw [← zip_take_eq u v]

/-! ## Claim theorems -/

/-- C3: for a non-empty centroid list and records whose feature parts have
the centroids' common length, `find_closest_centroids` returns one index
per record; each index is in range, achieves the minimal Euclidean
distance from the record's feature part to a centroid, and is the
smallest index achieving that minimum (all earlier centroids are strictly
farther). -/
theorem find_closest_centroids_correct (monthly_data : List Record)
    (C : List (List Int)) (d : Nat) (hC : C ≠ []) (hCd : ∀ c ∈ C, c.length = d)
    (hd : ∀ r ∈ monthly_data, r.2.length = d) :
    (find_closest_centroids monthly_data C).length = monthly_data.length ∧
    ∀ i < monthly_data.length,
      (find_closest_centroids monthly_data C).getD i 0 < C.length ∧
      (∀ m < C.length,
        dist (monthly_data.getD i ("", [])).2
            (C.getD ((find_closest_centroids monthly_data C).getD i 0) []) ≤
          dist (monthly_data.getD i ("", [])).2 (C.getD m [])) ∧
      (∀ m < (find_closest_centroids monthly_data C).getD i 0,
        dist (monthly_data.getD i ("", [])).2
            (C.getD ((find_closest_centroids monthly_data C).getD i 0) []) <
          dist (monthly_data.getD i ("", [])).2 (C.getD m [])) := by
  refine ⟨find_closest_centroids_length monthly_data C, fun i hi => ?_⟩
  obtain ⟨h1, h2, h3⟩ := find_closest_centroids_spec monthly_data C hC i hi
  refine ⟨h1, fun m hm => ?_, fun m hm => ?_⟩
  · rw [dist_le_dist_iff]
    exact h2 m hm
  · rw [dist_lt_dist_iff]
    exact h3 m hm

/-- Witness for C3: the spec's example (the unit test): feature points
`[0,1], [3,1], [6,1]` against centroids `[0,0], [3,4], [6,0]` are
assigned `[0, 1, 2]`, and the index assigned to the middle point achieves
a distance no larger than centroid 2's. -/
theorem find_closest_centroids_correct_witness :
    find_closest_centroids [("", [0, 1]), ("", [3, 1]), ("", [6, 1])]
        [[0, 0], [3, 4], [6, 0]] = [0, 1, 2] ∧
    dist ([(("" : String), [0, 1]), ("", [3, 1]), ("", [6, 1])].getD 1 ("", [])).2
        ([[0, 0], [3, 4], [6, 0]].getD
          ((find_closest_centroids [("", [0, 1]), ("", [3, 1]), ("", [6, 1])]
            [[0, 0], [3, 4], [6, 0]]).getD 1 0) []) ≤
      dist ([(("" : String), [0, 1]), ("", [3, 1]), ("", [6, 1])].getD 1 ("", [])).2
        ([[0, 0], [3, 4], [6, 0]].getD 2 []) := by
  constructor
  · decide
  · exact ((find_closest_centroids_correct
      [("", [0, 1]), ("", [3, 1]), ("", [6, 1])] [[0, 0], [3, 4], [6, 0]] 2
      (by decide) (by decide) (by decide)).2 1 (by decide)).2.1 2 (by decide)

/-- C4: for an assignment with one in-range cluster index per record,
`compute_centroids` returns, for each non-empty cluster in cluster-index
order, the component-wise mean of the feature parts of the records
assigned to it, rounded to the nearest integer (`roundedMeanCentroids`,
the spec's words). -/
theorem compute_centroids_rounded_means (monthly_data : List Record)
    (indices : List Nat) (k d : Nat) (hne : monthly_data ≠ [])
    (hd : ∀ r ∈ monthly_data, r.2.length = d)
    (hilen : indices.length = monthly_data.length)
    (hb : ∀ i < monthly_data.length, indices.getD i 0 < k) :
    compute_centroids monthly_data indices k =
      roundedMeanCentroids monthly_data indices k d := by
  have hhead : monthly_data.headI.2.length = d := by
    cases monthly_data with
    | nil => exact absurd rfl hne
    | cons r rest => exact hd r (List.mem_cons_self ..)
  rw [compute_centroids_eq monthly_data indices k hb, hhead]

/-- Witness for C4: the spec's example (the unit test): points `[0,1]` and
`[6,1]` in cluster 0 and `[3,3]` in cluster 1 yield `[[3,1],[3,3]]`. -/
theorem compute_centroids_rounded_means_witness :
    compute_centroids [("", [0, 1]), ("", [3, 3]), ("", [6, 1])] [0, 1, 0] 2 =
      roundedMeanCentroids [("", [0, 1]), ("", [3, 3]), ("", [6, 1])] [0, 1, 0] 2 2 ∧
    compute_centroids [("", [0, 1]), ("", [3, 3]), ("", [6, 1])] [0, 1, 0] 2 =
      [[3, 1], [3, 3]] := by
  constructor
  · exact compute_centroids_rounded_means
      [("", [0, 1]), ("", [3, 3]), ("", [6, 1])] [0, 1, 0] 2 2
      (by decide) (by decide) (by decide) (by decide)
  · have hsums : (aggSums [("", [0, 1]), ("", [3, 3]), ("", [6, 1])] [0, 1, 0] 2 3).filter
        (fun row => row.getD 0 0 != 0) = [[2, 6, 2], [1, 3, 3]] := by decide
    show ((aggSums [("", [0, 1]), ("", [3, 3]), ("", [6, 1])] [0, 1, 0] 2 3).filter
        (fun row => row.getD 0 0 != 0)).map
      (fun row => row.tail.map
        (fun x : Int => pyRound ((x : ℚ) / ((row.getD 0 0 : ℤ) : ℚ)))) = [[3, 1], [3, 3]]
    rw [hsums]
    simp only [List.map_cons, List.map_nil, List.tail_cons, List.getD_cons_zero]
    norm_num [pyRound]

/-- C5: a cluster with zero assigned records contributes no centroid: the
output has exactly one centroid per non-empty cluster, hence at most `k`
centroids, and strictly fewer than `k` when some cluster is empty. -/
theorem compute_centroids_drops_empty (monthly_data : List Record)
    (indices : List Nat) (k : Nat) (hne : monthly_data ≠ [])
    (hilen : indices.length = monthly_data.length)
    (hb : ∀ i < monthly_data.length, indices.getD i 0 < k) :
    (compute_centroids monthly_data indices k).length =
      ((List.range k).filter
        (fun c => clusterCount indices monthly_data.length c != 0)).length ∧
    (compute_centroids monthly_data indices k).length ≤ k ∧
    ((∃ c < k, clusterCount indices monthly_data.length c = 0) →
      (compute_centroids monthly_data indices k).length < k) := by
  have h1 := compute_centroids_length monthly_data indices k hb
  have h2 : (compute_centroids monthly_data indices k).length ≤ k := by
    rw [h1]
    calc ((List.range k).filter _).length ≤ (List.range k).length :=
          List.length_filter_le ..
      _ = k := List.length_range k
  refine ⟨h1, h2, ?_⟩
  rintro ⟨c, hck, hc0⟩
  rcases lt_or_eq_of_le h2 with h | h
  · exact h
  exfalso
  have hflen : ((List.range k).filter
      (fun c => clusterCount indices monthly_data.length c != 0)).length =
      (List.range k).length := by
    rw [List.length_range]
    omega
  have heq : (List.range k).filter
      (fun c => clusterCount indices monthly_data.length c != 0) = List.range k :=
    (List.filter_sublist _).eq_of_length hflen
  rw [List.filter_eq_self] at heq
  have := heq c (List.mem_range.mpr hck)
  simp [hc0] at this

/-- Witness for C5: one record in cluster 0 with `k = 2`: cluster 1 is
empty, so only one centroid comes back. -/
theorem compute_centroids_drops_empty_witness :
    (compute_centroids [("A", [5])] [0] 2).length = 1 ∧
    (compute_centroids [("A", [5])] [0] 2).length < 2 := by
  refine ⟨by decide, ?_⟩
  exact (compute_centroids_drops_empty [("A", [5])] [0] 2
    (by decide) (by decide) (by decide)).2.2 ⟨1, by decide, by decide⟩

/-- C6 counterexample: the engine has no dimension check: with feature
vectors and centroids of unequal lengths, a distance and an assignment
are silently computed (here `distSq [3,4] [0] = 9`, using only the common
prefix, and a mixed-length centroid list yields an ordinary assignment). -/
theorem no_dimension_check_counterexample :
    distSq [3, 4] [0] = 9 ∧
    find_closest_centroids [("S", [0, 1])] [[0], [9, 9, 9]] = [0] := by
  decide

/-- C6 (amended): feature vectors of inconsistent lengths are not
detected: `dist`'s `zip` silently truncates both vectors to their common
prefix and the engine computes distances and assignments over it. -/
theorem distSq_truncates (u v : List Int) :
    distSq u v = distSq (u.take v.length) (v.take u.length) := by
  unfold distSq
  rw [zip_take_eq]

/-- C9: the initializer yields exactly `k` centroids, each of the full
24-component dimensionality, each equal to the domain-seeded base vector
shifted uniformly by that centroid's own scalar draw (the draws lie in
`[-800, 800]`). -/
theorem initial_centroids_spec (shifts : List Int) (k : Nat)
    (hk : shifts.length = k) (hr : ∀ s ∈ shifts, -800 ≤ s ∧ s ≤ 800) :
    (initialCentroids shifts).length = k ∧
    ∀ i < k, ((initialCentroids shifts).getD i []).length = 24 ∧
      (initialCentroids shifts).getD i [] =
        base.map (fun x => x + shifts.getD i 0) := by
  constructor
  · rw [initialCentroids, List.length_map, hk]
  · intro i hik
    have hi : i < shifts.length := by omega
    have hmap : (initialCentroids shifts).getD i [] =
        initial_centroid (shifts.getD i 0) := getD_of_map _ _ _ _ 0 hi
    rw [hmap]
    refine ⟨?_, rfl⟩
    show (base.map (fun x => x + shifts.getD i 0)).length = 24
    rw [List.length_map]
    rfl

/-- Witness for C9: thirteen equal draws of 100. -/
theorem initial_centroids_spec_witness :
    (initialCentroids (List.replicate 13 100)).length = 13 ∧
    (initialCentroids (List.replicate 13 100)).getD 0 [] =
      base.map (fun x => x + (List.replicate 13 (100 : Int)).getD 0 0) := by
  have h := initial_centroids_spec (List.replicate 13 100) 13 (by decide) (by decide)
  exact ⟨h.1, (h.2 0 (by decide)).2⟩

/-- One preserved step of the loop invariant. -/
lemma kmeansStep_inv (monthly_data : List Record) (k : Nat) (C : List (List Int))
    (hne : monthly_data ≠ []) (hC : C ≠ []) (hCk : C.length ≤ k) :
    kmeansStep monthly_data k C ≠ [] ∧ (kmeansStep monthly_data k C).length ≤ k := by
  have hN : 0 < monthly_data.length := List.length_pos.mpr hne
  have hb : ∀ i < monthly_data.length,
      (find_closest_centroids monthly_data C).getD i 0 < k := fun i hi =>
    lt_of_lt_of_le (find_closest_centroids_spec monthly_data C hC i hi).1 hCk
  have hlen := compute_centroids_length monthly_data
    (find_closest_centroids monthly_data C) k hb
  constructor
  · have hc0 : (find_closest_centroids monthly_data C).getD 0 0 < k := hb 0 hN
    have hcount : clusterCount (find_closest_centroids monthly_data C)
        monthly_data.length ((find_closest_centroids monthly_data C).getD 0 0) ≠ 0 :=
      (clusterCount_ne_zero_iff ..).mpr ⟨0, hN, rfl⟩
    have hmem : (find_closest_centroids monthly_data C).getD 0 0 ∈
        (List.range k).filter (fun c => clusterCount
          (find_closest_centroids monthly_data C) monthly_data.length c != 0) :=
      List.mem_filter.mpr ⟨List.mem_range.mpr hc0, by simpa using hcount⟩
    intro hnil
    have : (kmeansStep monthly_data k C).length = 0 := by rw [hnil]; rfl
    rw [kmeansStep, hlen] at this
    exact absurd this (List.ne_nil_of_mem hmem ∘ List.length_eq_zero.mp)
  · rw [kmeansStep, hlen]
    calc ((List.range k).filter _).length ≤ (List.range k).length :=
          List.length_filter_le ..
      _ = k := List.length_range k

/-- C10: loop invariant of the k-means iteration: starting from `k`
initial centroids over a non-empty dataset, at every iteration the
centroid list is non-empty with at most `k` centroids, every assigned
index is within the current centroid list, and hence within the `k`
accumulator slots of `compute_centroids`. -/
theorem kmeans_loop_invariant (monthly_data : List Record) (k : Nat)
    (C0 : List (List Int)) (hne : monthly_data ≠ []) (hk0 : C0.length = k)
    (hkpos : 0 < k) (t : Nat) :
    loopCentroids monthly_data k C0 t ≠ [] ∧
    (loopCentroids monthly_data k C0 t).length ≤ k ∧
    ∀ i < monthly_data.length,
      (find_closest_centroids monthly_data
          (loopCentroids monthly_data k C0 t)).getD i 0 <
        (loopCentroids monthly_data k C0 t).length ∧
      (find_closest_centroids monthly_data
          (loopCentroids monthly_data k C0 t)).getD i 0 < k := by
  have main : loopCentroids monthly_data k C0 t ≠ [] ∧
      (loopCentroids monthly_data k C0 t).length ≤ k := by
    induction t with
    | zero =>
      refine ⟨?_, le_of_eq hk0⟩
      show C0 ≠ []
      intro h
      rw [h] at hk0
      simp at hk0
      omega
    | succ t iht =>
      exact kmeansStep_inv monthly_data k _ hne iht.1 iht.2
  refine ⟨main.1, main.2, fun i hi => ?_⟩
  have h := (find_closest_centroids_spec monthly_data _ main.1 i hi).1
  exact ⟨h, lt_of_lt_of_le h main.2⟩

/-- Witness for C10 at a one-record dataset, `k = 1`, one iteration. -/
theorem kmeans_loop_invariant_witness :
    loopCentroids [("A", [1])] 1 [[2]] 1 ≠ [] ∧
    (loopCentroids [("A", [1])] 1 [[2]] 1).length ≤ 1 := by
  have h := kmeans_loop_invariant [("A", [1])] 1 [[2]]
    (by decide) (by decide) (by decide) 1
  exact ⟨h.1, h.2.1⟩

/-- Python `zip(*ls)` over lists of uniform length `n` is the transpose: row `m`
collects entry `m` of every list. -/
lemma pyZipAux_of_uniform : ∀ (n : Nat) (ls : List (List Int)), ls ≠ [] →
    (∀ l ∈ ls, l.length = n) →
    pyZipAux n ls = (List.range n).map (fun m => ls.map (fun l => l.getD m 0)) := by
  intro n
  induction n with
  | zero =>
    intro ls _ _
    simp [pyZipAux]
  | succ n ih =>
    intro ls hne hlen
    have hnotempty : (ls.isEmpty || ls.any List.isEmpty) = false := by
      rw [Bool.or_eq_false_iff]
      constructor
      · simpa [List.isEmpty_iff] using hne
      · rw [List.any_eq_false]
        intro l hl
        have h := hlen l hl
        simp [List.isEmpty_iff]
        intro hnil
        rw [hnil] at h
        simp at h
    rw [pyZipAux, hnotempty]
    simp only [Bool.false_eq_true, if_false]
    have htl : ∀ l' ∈ ls.map List.tail, l'.length = n := by
      intro l' hl'
      obtain ⟨l, hl, rfl⟩ := List.mem_map.mp hl'
      have h := hlen l hl
      rw [List.length_tail, h]
      omega
    have hne' : ls.map List.tail ≠ [] := by simpa using hne
    rw [ih (ls.map List.tail) hne' htl]
    rw [List.range_succ_eq_map]
    simp only [List.map_cons, List.map_map]
    congr 1
    · apply List.map_congr_left
      intro l hl
      have h := hlen l hl
      cases l with
      | nil => exact absurd h.symm (Nat.succ_ne_zero n)
      | cons a l' => rfl
    · apply List.map_congr_left
      intro m _
      simp only [Function.comp_apply, List.map_map]
      apply List.map_congr_left
      intro l hl
      have h := hlen l hl
      cases l with
      | nil => exact absurd h.symm (Nat.succ_ne_zero n)
      | cons a l' => rfl

lemma pyZip_of_uniform (n : Nat) (ls : List (List Int)) (hne : ls ≠ [])
    (hlen : ∀ l ∈ ls, l.length = n) :
    pyZip ls = (List.range n).map (fun m => ls.map (fun l => l.getD m 0)) := by
  have hhead : ls.headI.length = n := by
    cases ls with
    | nil => exact absurd rfl hne
    | cons l rest => exact hlen l (List.mem_cons_self ..)
  rw [pyZip, hhead]
  exact pyZipAux_of_uniform n ls hne hlen

lemma optionMapList_eq_some_map {α β : Type} (L : List α) (f : α → Option β)
    (g : α → β) (hall : ∀ x ∈ L, f x = some (g x)) :
    optionMapList L f = some (L.map g) := by
  induction L with
  | nil => rfl
  | cons x xs ih =>
    have hx := hall x (List.mem_cons_self ..)
    have hxs := ih (fun y hy => hall y (List.mem_cons_of_mem x hy))
    simp only [optionMapList, hx, hxs, List.map_cons]
    rfl

lemma optionMapList_eq_none {α β : Type} (L : List α) (f : α → Option β)
    (x : α) (hx : x ∈ L) (hfx : f x = none) : optionMapList L f = none := by
  induction L with
  | nil => cases hx
  | cons y ys ih =>
    simp only [optionMapList]
    rcases List.mem_cons.mp hx with rfl | hx'
    · rw [hfx]
    · cases hfy : f y
      · rfl
      · rw [ih hx']
        rfl

/-- C7: for a station whose per-year rows all have the 12 calendar
positions and where every position has at least one non-sentinel reading,
`avg_monthly_values` returns a 12-vector whose entry at position `m` is
the rounded mean of the non-sentinel readings at position `m` (sentinel
readings count toward neither the sum nor the denominator). -/
theorem avg_monthly_values_correct (ls : List (List Int))
    (h12 : ∀ l ∈ ls, l.length = 12)
    (hcov : ∀ m < 12, ∃ l ∈ ls, l.getD m 0 ≠ -9999) :
    ∃ v, avg_monthly_values ls = some v ∧ v.length = 12 ∧
      ∀ m < 12, v.getD m 0 =
        pyRound ((((ls.map (fun l => l.getD m 0)).filter
            (fun x => x != -9999)).sum : ℚ) /
          (((ls.map (fun l => l.getD m 0)).filter
            (fun x => x != -9999)).length : ℚ)) := by
  have hne : ls ≠ [] := by
    obtain ⟨l, hl, -⟩ := hcov 0 (by omega)
    exact List.ne_nil_of_mem hl
  have hzip := pyZip_of_uniform 12 ls hne h12
  have hfilt_ne : ∀ m < 12,
      ((ls.map (fun l => l.getD m 0)).filter (fun x => x != -9999)).length ≠ 0 := by
    intro m hm
    obtain ⟨l, hl, hlv⟩ := hcov m hm
    have hmem : l.getD m 0 ∈
        (ls.map (fun l => l.getD m 0)).filter (fun x => x != -9999) :=
      List.mem_filter.mpr ⟨List.mem_map.mpr ⟨l, hl, rfl⟩, by simpa using hlv⟩
    intro hlen0
    rw [List.length_eq_zero] at hlen0
    rw [hlen0] at hmem
    cases hmem
  rw [avg_monthly_values, hzip, List.map_map]
  set F := fun m => (ls.map (fun l => l.getD m 0)).filter (fun x => x != -9999)
    with hF
  have hFcomp : ((fun l => l.filter (fun x => x != -9999)) ∘
      fun m => ls.map (fun l => l.getD m 0)) = F := rfl
  rw [hFcomp]
  rw [optionMapList_eq_some_map _ _
    (fun l => pyRound ((l.sum : ℚ) / (l.length : ℚ))) ?_]
  · refine ⟨_, rfl, by simp, fun m hm => ?_⟩
    rw [List.map_map]
    rw [getD_map_range _ _ _ _ hm]
    rfl
  · intro l hl
    obtain ⟨m, hm, rfl⟩ := List.mem_map.mp hl
    rw [if_neg (hfilt_ne m (List.mem_range.mp hm))]

/-- C8: if a station (even one past the 20-row filter) has some calendar
position where every reading is the sentinel, `avg_monthly_values` raises
(`ZeroDivisionError`, modelled as `none`) instead of producing a vector. -/
theorem avg_monthly_values_missing_position (ls : List (List Int))
    (h12 : ∀ l ∈ ls, l.length = 12) (hpass : ls.length > 20)
    (hmiss : ∃ m < 12, ∀ l ∈ ls, l.getD m 0 = -9999) :
    avg_monthly_values ls = none := by
  obtain ⟨m, hm, hallm⟩ := hmiss
  have hne : ls ≠ [] := by
    intro h
    rw [h] at hpass
    simp at hpass
  have hzip := pyZip_of_uniform 12 ls hne h12
  rw [avg_monthly_values, hzip, List.map_map]
  apply optionMapList_eq_none _ _
    ((ls.map (fun l => l.getD m 0)).filter (fun x => x != -9999))
  · apply List.mem_map.mpr
    exact ⟨m, List.mem_range.mpr hm, rfl⟩
  · have hnil : (ls.map (fun l => l.getD m 0)).filter (fun x => x != -9999) = [] := by
      rw [List.filter_eq_nil]
      intro x hx
      obtain ⟨l, hl, rfl⟩ := List.mem_map.mp hx
      simp only [hallm l hl, bne_self_eq_false, Bool.false_eq_true, not_false_eq_true]
    rw [hnil]
    rfl

/-- Witness for C7: 21 years of constant readings `5`. -/
theorem avg_monthly_values_correct_witness :
    ∃ v, avg_monthly_values (List.replicate 21 (List.replicate 12 5)) = some v ∧
      v.length = 12 ∧
      ∀ m < 12, v.getD m 0 =
        pyRound ((((((List.replicate 21 (List.replicate 12 (5 : ℤ))).map
            (fun l => l.getD m 0)).filter (fun x => x != -9999)).sum : ℤ) : ℚ) /
          ((((List.replicate 21 (List.replicate 12 (5 : ℤ))).map
            (fun l => l.getD m 0)).filter (fun x => x != -9999)).length : ℚ)) :=
  avg_monthly_values_correct (List.replicate 21 (List.replicate 12 5))
    (by decide) (by decide)

/-- Witness for C8: 21 years whose January reading is always missing. -/
theorem avg_monthly_values_missing_position_witness :
    avg_monthly_values (List.replicate 21 ((-9999) :: List.replicate 11 0)) = none :=
  avg_monthly_values_missing_position _ (by decide) (by decide)
    ⟨0, by decide, by decide⟩

/-- C1: over a fixed non-empty dataset of equal-length feature records,
the distortion reported after an update phase — `compute_distortion` of
the freshly recomputed centroids with that same iteration's assignment —
is non-increasing between any two consecutive iterations of the loop at
which it is computed at all. (When a dropped empty cluster misaligns the
assignment with the shrunken centroid list, the source raises `IndexError`
instead of reporting a value; that crash is `none` here, so both
hypotheses ask for reported values.) -/
theorem distortion_nonincreasing (monthly_data : List Record) (k : Nat)
    (C : List (List Int)) (d : Nat)
    (hne : monthly_data ≠ [])
    (hd : ∀ r ∈ monthly_data, r.2.length = d)
    (hC : C ≠ []) (hCk : C.length ≤ k) (q₁ q₂ : ℚ)
    (h₁ : stepDistortion monthly_data k C = some q₁)
    (h₂ : stepDistortion monthly_data k (kmeansStep monthly_data k C) = some q₂) :
    q₂ ≤ q₁ := by
  obtain ⟨hg1, hq1⟩ := compute_distortion_some monthly_data
    (kmeansStep monthly_data k C) (find_closest_centroids monthly_data C) q₁ h₁
  obtain ⟨hg2, hq2⟩ := compute_distortion_some monthly_data
    (kmeansStep monthly_data k (kmeansStep monthly_data k C))
    (find_closest_centroids monthly_data (kmeansStep monthly_data k C)) q₂ h₂
  set N := monthly_data.length with hNdef
  have hNpos : 0 < N := List.length_pos.mpr hne
  have hd' : monthly_data.headI.2.length = d := by
    cases monthly_data with
    | nil => exact absurd rfl hne
    | cons r rest => exact hd r (List.mem_cons_self ..)
  have hrowlen : ∀ i < N, (monthly_data.getD i ("", [])).2.length = d := by
    intro i hi
    apply hd
    rw [List.getD_eq_getElem _ _ hi]
    exact List.getElem_mem ..
  set idx1 := find_closest_centroids monthly_data C with hidx1def
  set C' := kmeansStep monthly_data k C with hC'def
  set idx2 := find_closest_centroids monthly_data C' with hidx2def
  set C'' := kmeansStep monthly_data k C' with hC''def
  -- invariants of the first step
  have hb1 : ∀ i < N, idx1.getD i 0 < k := fun i hi =>
    lt_of_lt_of_le (find_closest_centroids_spec monthly_data C hC i hi).1 hCk
  have hC'facts := kmeansStep_inv monthly_data k C hne hC hCk
  have hC'ne : C' ≠ [] := hC'facts.1
  have hC'k : C'.length ≤ k := hC'facts.2
  have hC'mem : ∀ c ∈ C', c.length = d := by
    intro c hc
    have h := compute_centroids_mem_length monthly_data idx1 k hb1 c hc
    rw [hd'] at h
    exact h
  have hb2 : ∀ i < N, idx2.getD i 0 < k := fun i hi =>
    lt_of_lt_of_le (find_closest_centroids_spec monthly_data C' hC'ne i hi).1 hC'k
  -- bounds extracted from definedness of the two reported values
  have hidx1C' : ∀ i < N, idx1.getD i 0 < C'.length := fun i hi => (hg1.2 i hi).2
  have hidx2C'' : ∀ i < N, idx2.getD i 0 < C''.length := fun i hi => (hg2.2 i hi).2
  -- alignment of the second iteration's centroids with its assignment
  have hm2 : C''.length = ((List.range k).filter
      (fun c => clusterCount idx2 N c != 0)).length :=
    compute_centroids_length monthly_data idx2 k hb2
  have halign : (List.range k).filter (fun c => clusterCount idx2 N c != 0)
      = List.range C''.length := by
    apply filter_range_eq_range _ k C''.length hm2.symm
    intro c hck hpc
    have hcount : clusterCount idx2 N c ≠ 0 := by simpa using hpc
    obtain ⟨i, hiN, hic⟩ := (clusterCount_ne_zero_iff idx2 N c).mp hcount
    rw [← hic]
    exact hidx2C'' i hiN
  have hC''getD : ∀ j < C''.length, C''.getD j [] =
      (List.range d).map (fun t =>
        pyRound ((clusterSumAt monthly_data idx2 N j t : ℚ) /
          (clusterCount idx2 N j : ℚ))) := by
    intro j hj
    have heq : C'' = roundedMeanCentroids monthly_data idx2 k d := by
      have h := compute_centroids_eq monthly_data idx2 k hb2
      rw [hd'] at h
      exact h
    rw [heq]
    unfold roundedMeanCentroids
    rw [halign]
    exact getD_map_range _ _ _ _ hj
  have hfibne : ∀ j < C''.length,
      ((Finset.range N).filter (fun i => idx2.getD i 0 = j)).Nonempty := by
    intro j hj
    have hjmem : j ∈ (List.range k).filter
        (fun c => clusterCount idx2 N c != 0) := by
      rw [halign]
      exact List.mem_range.mpr hj
    have hpc := (List.mem_filter.mp hjmem).2
    have hcount : clusterCount idx2 N j ≠ 0 := by simpa using hpc
    exact Finset.card_pos.mp (Nat.pos_of_ne_zero hcount)
  have hjC' : ∀ j < C''.length, j < C'.length := by
    intro j hj
    obtain ⟨i, hi⟩ := hfibne j hj
    rw [Finset.mem_filter, Finset.mem_range] at hi
    rw [← hi.2]
    exact (find_closest_centroids_spec monthly_data C' hC'ne i hi.1).1
  have hC'getDlen : ∀ j < C'.length, (C'.getD j []).length = d := by
    intro j hj
    apply hC'mem
    rw [List.getD_eq_getElem _ _ hj]
    exact List.getElem_mem ..
  -- the update phase can only decrease the cost, cluster by cluster
  have hS21 : ∑ i in Finset.range N,
      ((distSq (monthly_data.getD i ("", [])).2
        (C''.getD (idx2.getD i 0) []) : ℤ) : ℚ) ≤
      ∑ i in Finset.range N,
      ((distSq (monthly_data.getD i ("", [])).2
        (C'.getD (idx2.getD i 0) []) : ℤ) : ℚ) := by
    have hmaps : ∀ i ∈ Finset.range N,
        idx2.getD i 0 ∈ Finset.range C''.length := fun i hi =>
      Finset.mem_range.mpr (hidx2C'' i (Finset.mem_range.mp hi))
    rw [← Finset.sum_fiberwise_of_maps_to hmaps
      (fun i => ((distSq (monthly_data.getD i ("", [])).2
        (C''.getD (idx2.getD i 0) []) : ℤ) : ℚ))]
    rw [← Finset.sum_fiberwise_of_maps_to hmaps
      (fun i => ((distSq (monthly_data.getD i ("", [])).2
        (C'.getD (idx2.getD i 0) []) : ℤ) : ℚ))]
    refine Finset.sum_le_sum (fun j hj => ?_)
    have hjlt := Finset.mem_range.mp hj
    have hfib_congr : ∀ (E : List (List Int)),
        ∑ i in (Finset.range N).filter (fun i => idx2.getD i 0 = j),
          ((distSq (monthly_data.getD i ("", [])).2
            (E.getD (idx2.getD i 0) []) : ℤ) : ℚ) =
        ∑ i in (Finset.range N).filter (fun i => idx2.getD i 0 = j),
          ((distSq (monthly_data.getD i ("", [])).2 (E.getD j []) : ℤ) : ℚ) := by
      intro E
      refine Finset.sum_congr rfl (fun i hi => ?_)
      rw [(Finset.mem_filter.mp hi).2]
    rw [hfib_congr C'', hfib_congr C']
    have hv : ∀ i ∈ (Finset.range N).filter (fun i => idx2.getD i 0 = j),
        ((monthly_data.getD i ("", [])).2).length = d := fun i hi =>
      hrowlen i (Finset.mem_range.mp (Finset.mem_of_mem_filter i hi))
    have hz := hC'getDlen j (hjC' j hjlt)
    rw [hC''getD j hjlt]
    exact cluster_update_le
      ((Finset.range N).filter (fun i => idx2.getD i 0 = j)) (hfibne j hjlt)
      (fun i => (monthly_data.getD i ("", [])).2) d hv (C'.getD j []) hz
  -- the assignment phase can only decrease the cost, point by point
  have hS10 : ∑ i in Finset.range N,
      ((distSq (monthly_data.getD i ("", [])).2
        (C'.getD (idx2.getD i 0) []) : ℤ) : ℚ) ≤
      ∑ i in Finset.range N,
      ((distSq (monthly_data.getD i ("", [])).2
        (C'.getD (idx1.getD i 0) []) : ℤ) : ℚ) := by
    refine Finset.sum_le_sum (fun i hi => ?_)
    have hiN := Finset.mem_range.mp hi
    have h := (find_closest_centroids_spec monthly_data C' hC'ne i hiN).2.1
      (idx1.getD i 0) (hidx1C' i hiN)
    exact_mod_cast h
  rw [hq1, hq2]
  have hNq : (0 : ℚ) < (N : ℚ) := by exact_mod_cast hNpos
  exact (div_le_div_right hNq).mpr (le_trans hS21 hS10)

/-- Witness for C1: three 1-D stations `0, 3, 9` from centroids `0, 4`:
the first reported distortion is `6`, the next `5/3`. -/
theorem distortion_nonincreasing_witness : (5 / 3 : ℚ) ≤ 6 := by
  have hidxA : find_closest_centroids [("A", [0]), ("B", [3]), ("C", [9])]
      [[0], [4]] = [0, 1, 1] := by decide
  have hsumsA : (aggSums [("A", [0]), ("B", [3]), ("C", [9])] [0, 1, 1] 2 2).filter
      (fun row => row.getD 0 0 != 0) = [[1, 0], [2, 12]] := by decide
  have hccA : compute_centroids [("A", [0]), ("B", [3]), ("C", [9])] [0, 1, 1] 2 =
      [[0], [6]] := by
    show ((aggSums [("A", [0]), ("B", [3]), ("C", [9])] [0, 1, 1] 2 2).filter
        (fun row => row.getD 0 0 != 0)).map
      (fun row => row.tail.map
        (fun x : Int => pyRound ((x : ℚ) / ((row.getD 0 0 : ℤ) : ℚ)))) = [[0], [6]]
    rw [hsumsA]
    simp only [List.map_cons, List.map_nil, List.tail_cons, List.getD_cons_zero]
    norm_num [pyRound]
  have hstepA : kmeansStep [("A", [0]), ("B", [3]), ("C", [9])] 2 [[0], [4]] =
      [[0], [6]] := by
    show compute_centroids [("A", [0]), ("B", [3]), ("C", [9])]
      (find_closest_centroids [("A", [0]), ("B", [3]), ("C", [9])] [[0], [4]]) 2 =
      [[0], [6]]
    rw [hidxA]
    exact hccA
  have h₁ : stepDistortion [("A", [0]), ("B", [3]), ("C", [9])] 2 [[0], [4]] =
      some 6 := by
    show compute_distortion [("A", [0]), ("B", [3]), ("C", [9])]
      (kmeansStep [("A", [0]), ("B", [3]), ("C", [9])] 2 [[0], [4]])
      (find_closest_centroids [("A", [0]), ("B", [3]), ("C", [9])] [[0], [4]]) =
      some 6
    rw [hstepA, hidxA]
    rw [compute_distortion_eval [("A", [0]), ("B", [3]), ("C", [9])] [[0], [6]]
      [0, 1, 1] 18 (by decide) (by decide)]
    norm_num
  have hidxB : find_closest_centroids [("A", [0]), ("B", [3]), ("C", [9])]
      [[0], [6]] = [0, 0, 1] := by decide
  have hsumsB : (aggSums [("A", [0]), ("B", [3]), ("C", [9])] [0, 0, 1] 2 2).filter
      (fun row => row.getD 0 0 != 0) = [[2, 3], [1, 9]] := by decide
  have hccB : compute_centroids [("A", [0]), ("B", [3]), ("C", [9])] [0, 0, 1] 2 =
      [[2], [9]] := by
    show ((aggSums [("A", [0]), ("B", [3]), ("C", [9])] [0, 0, 1] 2 2).filter
        (fun row => row.getD 0 0 != 0)).map
      (fun row => row.tail.map
        (fun x : Int => pyRound ((x : ℚ) / ((row.getD 0 0 : ℤ) : ℚ)))) = [[2], [9]]
    rw [hsumsB]
    simp only [List.map_cons, List.map_nil, List.tail_cons, List.getD_cons_zero]
    norm_num [pyRound]
  have hstepB : kmeansStep [("A", [0]), ("B", [3]), ("C", [9])] 2 [[0], [6]] =
      [[2], [9]] := by
    show compute_centroids [("A", [0]), ("B", [3]), ("C", [9])]
      (find_closest_centroids [("A", [0]), ("B", [3]), ("C", [9])] [[0], [6]]) 2 =
      [[2], [9]]
    rw [hidxB]
    exact hccB
  have h₂ : stepDistortion [("A", [0]), ("B", [3]), ("C", [9])] 2
      (kmeansStep [("A", [0]), ("B", [3]), ("C", [9])] 2 [[0], [4]]) =
      some (5 / 3) := by
    rw [hstepA]
    show compute_distortion [("A", [0]), ("B", [3]), ("C", [9])]
      (kmeansStep [("A", [0]), ("B", [3]), ("C", [9])] 2 [[0], [6]])
      (find_closest_centroids [("A", [0]), ("B", [3]), ("C", [9])] [[0], [6]]) =
      some (5 / 3)
    rw [hstepB, hidxB]
    rw [compute_distortion_eval [("A", [0]), ("B", [3]), ("C", [9])] [[2], [9]]
      [0, 0, 1] 5 (by decide) (by decide)]
    norm_num
  exact distortion_nonincreasing [("A", [0]), ("B", [3]), ("C", [9])] 2 [[0], [4]] 1
    (by decide) (by decide) (by decide) (by decide) 6 (5 / 3) h₁ h₂

/-- C2 (code bug): `data_gen` never flushes the final station group: for a
single eligible station with 21 rows in `[1981, 2010]` (strictly more
than the 20-row threshold) nothing at all is yielded, while the same rows
followed by one row of another station do yield the station. -/
theorem data_gen_drops_final_station :
    data_gen ["A"] ((List.range 21).map
      (fun i => ⟨"A", 1981 + (i : Int), List.replicate 12 0⟩)) = some [] ∧
    dataGenGroups ["A"] (((List.range 21).map
        (fun i => ⟨"A", 1981 + (i : Int), List.replicate 12 0⟩)) ++
          [⟨"B", 1981, List.replicate 12 0⟩]) "" [] =
      [("A", List.replicate 21 (List.replicate 12 0))] := by
  constructor
  · decide
  · decide

end Clustering
